import Mathlib

/-!
# A shallow embedding of the expectrl core (session.rs / stream.rs)

Bytes are modelled as natural numbers, byte buffers as `List Nat`.
The PTY master file descriptor is modelled by the sequence of bytes it will
still deliver (`fdData`) together with what happens once that sequence is
exhausted (`FdEnd`): the slave side has been closed (reads return 0), no data
is currently available (reads fail with `WouldBlock`), or the descriptor is
broken (reads fail with another I/O error).  The `O_NONBLOCK` flag of the
(dup-shared) descriptor is the `nonBlocking` field.

The two buffered layers of `stream.rs` are modelled explicitly: `inBuf` is the
internal buffer of the `BufReader` wrapped around `ReaderWithBuffer`, and
`buffer` is the retention buffer (`ReaderWithBuffer::buffer`).

Rust panics (out-of-bounds slicing / `Vec::drain`) are modelled by dedicated
`panicked` result constructors.  The unbounded `loop` of `Session::expect` is
modelled with an explicit iteration budget (`fuel`) plus an oracle
`el : Nat → Bool` giving, for each iteration, the value of the wall-clock test
`start.elapsed() > timeout`.
-/

namespace Expectrl

/-- The I/O error kinds the stream model distinguishes: `WouldBlock`
(EAGAIN on a non-blocking read) and any other I/O failure. -/
inductive IOKind
  | wouldBlock
  | otherErr
deriving DecidableEq, Repr

/-- Mirrors `error.rs`: the crate error type `Error` (the `Nix`/`Win` and
string payloads are irrelevant to the claims and dropped). -/
inductive Error
  | io (k : IOKind)
  | commandParsing
  | regexParsing
  | expectTimeout
  | eof
  | other
deriving DecidableEq, Repr

/-- What the fd does once its pending data is exhausted. -/
inductive FdEnd
  | closed
  | pending
  | broken
deriving DecidableEq, Repr

/-- The state of `stream.rs`'s `Stream` (sync flavour) plus its fd:
`inBuf` is the `BufReader` buffer, `buffer` the retention buffer of
`ReaderWithBuffer`, `fdData`/`fdEnd` the fd contents, `nonBlocking` the
`O_NONBLOCK` flag of the shared open file description. -/
structure Stream where
  inBuf : List Nat
  buffer : List Nat
  fdData : List Nat
  fdEnd : FdEnd
  nonBlocking : Bool
deriving DecidableEq, Repr

/-- `Stream::new`: fresh stream over an fd, both buffers empty, fd blocking. -/
def Stream.new (fdData : List Nat) (fdEnd : FdEnd) : Stream :=
  { inBuf := [], buffer := [], fdData := fdData, fdEnd := fdEnd, nonBlocking := false }

/-- All bytes the session has not yet consumed, in stream order: retention
buffer, then the upper line-buffer, then the bytes still pending at the fd. -/
def totalBytes (s : Stream) : List Nat := s.buffer ++ s.inBuf ++ s.fdData

/-- Model of a raw `read(2)` on the (non-blocking) fd into a scratch of `m`
bytes: data pending is delivered (up to `m` bytes), otherwise the outcome is
dictated by `FdEnd` (`closed` reads 0 bytes, `pending` raises `WouldBlock`,
`broken` raises another I/O error). -/
def fdRead (s : Stream) (m : Nat) : Except IOKind (List Nat) × Stream :=
  match s.fdData with
  | [] =>
    match s.fdEnd with
    | FdEnd.closed => (Except.ok [], s)
    | FdEnd.pending => (Except.error IOKind.wouldBlock, s)
    | FdEnd.broken => (Except.error IOKind.otherErr, s)
  | _ :: _ => (Except.ok (s.fdData.take m), { s with fdData := s.fdData.drop m })

/-- `stream.rs` `_make_non_blocking(fd, blocking)`: despite the parameter
name, `blocking = true` SETS `O_NONBLOCK` and `blocking = false` clears it
(`opt.set(OFlag::O_NONBLOCK, blocking)`).  `fcntl` on a valid fd is modelled
as infallible. -/
def _make_non_blocking (s : Stream) (blocking : Bool) : Stream :=
  { s with nonBlocking := blocking }

/-- `Stream::set_non_blocking_output`. -/
def Stream.set_non_blocking_output (s : Stream) : Stream := _make_non_blocking s true

/-- `Stream::set_blocking_output`. -/
def Stream.set_blocking_output (s : Stream) : Stream := _make_non_blocking s false

/-- `Stream::keep_in_buffer`: append bytes to the retention buffer. -/
def Stream.keep_in_buffer (s : Stream) (v : List Nat) : Stream :=
  { s with buffer := s.buffer ++ v }

/-- `Stream::flush_in_buffer`: move the `BufReader` buffer into the retention
buffer (consume it from the upper layer, `keep_in_buffer` it below). -/
def Stream.flush_in_buffer (s : Stream) : Stream :=
  { s with inBuf := [], buffer := s.buffer ++ s.inBuf }

/-- `Stream::get_available`: a view of the retention buffer. -/
def Stream.get_available (s : Stream) : List Nat := s.buffer

/-- `Stream::consume_from_buffer(n)`: `buffer.drain(..n)`.  `Vec::drain`
panics when `n` exceeds the buffer length; the panic is modelled by `none`. -/
def Stream.consume_from_buffer (s : Stream) (n : Nat) : Option Stream :=
  if n ≤ s.buffer.length then some { s with buffer := s.buffer.drop n } else none

/-- `Stream::try_read_inner`: set the fd non-blocking, do one raw read,
restore blocking mode (the restore runs whether or not the read failed). -/
def Stream.try_read_inner (s : Stream) (m : Nat) : Except IOKind (List Nat) × Stream :=
  let p := fdRead s.set_non_blocking_output m
  (p.1, p.2.set_blocking_output)

/-- `ReaderWithBuffer::read` seen through the `BufReader`: serve from the
`BufReader` buffer first, then from the retention buffer, else from the fd.
(The `BufReader` capacity-bypass special case is elided; it does not affect
any observable the claims mention.) -/
def Stream.buffered_read (s : Stream) (m : Nat) : Except IOKind (List Nat) × Stream :=
  match s.inBuf with
  | b :: bs => (Except.ok ((b :: bs).take m), { s with inBuf := (b :: bs).drop m })
  | [] =>
    match s.buffer with
    | c :: cs => (Except.ok ((c :: cs).take m), { s with buffer := (c :: cs).drop m })
    | [] => fdRead s m

/-- `Stream::try_read`: set the fd non-blocking, do one buffered read,
restore blocking mode on every exit path. -/
def Stream.try_read (s : Stream) (m : Nat) : Except IOKind (List Nat) × Stream :=
  let p := s.set_non_blocking_output.buffered_read m
  (p.1, p.2.set_blocking_output)

/-- The `loop` body of `Stream::read_available` (lines 139-148 of stream.rs):
repeatedly `try_read_inner` into a 248-byte scratch, keeping each non-empty
read in the retention buffer; a 0-byte read ends the loop with `eof = true`,
`WouldBlock` with `eof = false`, any other error propagates.  The source loop
is unbounded; `fuel` is an iteration budget, and `Stream.read_available`
passes `fdData.length + 1`, which always suffices because every non-empty
read consumes at least one pending byte (the fuel-exhausted branch is
unreachable from the wrapper). -/
def read_available_go : Nat → Stream → Except IOKind Bool × Stream
  | 0, s => (Except.error IOKind.otherErr, s)
  | fuel + 1, s =>
    match s.try_read_inner 248 with
    | (Except.ok [], s1) => (Except.ok true, s1)
    | (Except.ok (b :: bs), s1) => read_available_go fuel (s1.keep_in_buffer (b :: bs))
    | (Except.error IOKind.wouldBlock, s1) => (Except.ok false, s1)
    | (Except.error IOKind.otherErr, s1) => (Except.error IOKind.otherErr, s1)

/-- `Stream::read_available`: `flush_in_buffer`, then drain everything
currently available into the retention buffer; returns the `eof` flag. -/
def Stream.read_available (s : Stream) : Except IOKind Bool × Stream :=
  let sf := s.flush_in_buffer
  read_available_go (sf.fdData.length + 1) sf

/-- `Stream::read_available_once`: `flush_in_buffer`, then one non-blocking
read into a caller scratch of `m` bytes; read bytes are also kept in the
retention buffer; `none` models `WouldBlock`, `some 0` EOF. -/
def Stream.read_available_once (s : Stream) (m : Nat) : Except IOKind (Option Nat) × Stream :=
  let s0 := s.flush_in_buffer
  match s0.try_read_inner m with
  | (Except.ok [], s1) => (Except.ok (some 0), s1)
  | (Except.ok (b :: bs), s1) => (Except.ok (some (b :: bs).length), s1.keep_in_buffer (b :: bs))
  | (Except.error IOKind.wouldBlock, s1) => (Except.ok none, s1)
  | (Except.error e, s1) => (Except.error e, s1)

/-- Modelled from the spec: a match record of the (missing) needle module
`expect.rs` — an ordered pair of byte offsets `(start, end)` into the data
slice; the field `stop` models `end` (a Lean keyword). -/
structure Match where
  start : Nat
  stop : Nat
deriving DecidableEq, Repr

/-- Modelled from the spec: the result of a successful match — the bytes
consumed from the stream and the match records the needle returned (the
source field is `matches`, a reserved word here). -/
structure Found where
  bytes : List Nat
  records : List Match
deriving DecidableEq, Repr

/-- Modelled from the spec: `Found::right_most_index` of the missing
`expect.rs` — the maximum `end` offset across the records. -/
def Found.right_most_index (ms : List Match) : Nat :=
  ms.foldr (fun m acc => max m.stop acc) 0

/-- Modelled from the spec: the `Needle` interface of the missing
`expect.rs` — `check(data, eof) -> Result<Vec<Match>, Error>`, a pure
function of `(data, eof)`. -/
def Needle : Type := List Nat → Bool → Except Error (List Match)

/-- Mirrors `session.rs`: a `Session` owns a stream and an optional expect
timeout (milliseconds). -/
structure Session where
  stream : Stream
  expect_timeout : Option Nat
deriving DecidableEq, Repr

/-- `Session::spawn`: fresh stream over the child's fd, default expect
timeout `Some(Duration::from_millis(10000))`. -/
def Session.spawn (fdData : List Nat) (fdEnd : FdEnd) : Session :=
  { stream := Stream.new fdData fdEnd, expect_timeout := some 10000 }

/-- `Session::set_expect_timeout`. -/
def Session.set_expect_timeout (s : Session) (t : Option Nat) : Session :=
  { s with expect_timeout := t }

/-- The loop-local state of `Session::expect`: the stream, the cursor
`checking_data_length` (`k`) and the `eof` flag. -/
structure ExpectSt where
  stream : Stream
  k : Nat
  eof : Bool
deriving DecidableEq, Repr

/-- Lines 163-187 of session.rs: refresh `available`; when the cursor has
caught up with it (`k == available.len()`), read one byte non-blockingly via
`read_available_once(&mut [0; 1])` and record `eof = (result == Some(0))`;
then advance the cursor by one when it is strictly below the (refreshed)
available length.  A `some e` first component models the `?` propagation of
a read error. -/
def expectAdvance (st : ExpectSt) : Option IOKind × ExpectSt :=
  if st.k = st.stream.buffer.length then
    match st.stream.read_available_once 1 with
    | (Except.ok r, s1) =>
      let eof := r = some 0
      let k := if st.k < s1.buffer.length then st.k + 1 else st.k
      (none, ⟨s1, k, eof⟩)
    | (Except.error e, s1) => (some e, ⟨s1, st.k, st.eof⟩)
  else
    let k := if st.k < st.stream.buffer.length then st.k + 1 else st.k
    (none, ⟨st.stream, k, st.eof⟩)

instance {ε α : Type} [DecidableEq ε] [DecidableEq α] : DecidableEq (Except ε α) :=
  fun x y =>
    match x, y with
    | Except.ok a, Except.ok b =>
      if h : a = b then isTrue (by rw [h]) else isFalse (by intro hh; cases hh; exact h rfl)
    | Except.ok _, Except.error _ => isFalse (by intro hh; cases hh)
    | Except.error _, Except.ok _ => isFalse (by intro hh; cases hh)
    | Except.error a, Except.error b =>
      if h : a = b then isTrue (by rw [h]) else isFalse (by intro hh; cases hh; exact h rfl)

/-- Outcome of one iteration of the `Session::expect` loop. -/
inductive Iter
  | more (st : ExpectSt)
  | done (r : Except Error Found) (s : Stream)
  | panicked
deriving DecidableEq, Repr

/-- One iteration of the `Session::expect` loop (lines 162-208 of
session.rs): advance/read, slice `&available[..k]` (out-of-bounds modelled
by `panicked`), ask the needle; on records consume up to the right-most
index (`data[..end_index]` and `Vec::drain` out-of-bounds are `panicked`);
otherwise fail with `Eof` when `eof`, with `ExpectTimeout` when a timeout is
configured (`tset`) and elapsed (`el`), else keep looping. -/
def expectStep (n : Needle) (tset : Bool) (el : Bool) (st : ExpectSt) : Iter :=
  match expectAdvance st with
  | (some e, st1) => Iter.done (Except.error (Error.io e)) st1.stream
  | (none, st1) =>
    if st1.k ≤ st1.stream.buffer.length then
      let data := st1.stream.buffer.take st1.k
      match n data st1.eof with
      | Except.error e => Iter.done (Except.error e) st1.stream
      | Except.ok [] =>
        if st1.eof then Iter.done (Except.error Error.eof) st1.stream
        else if tset && el then Iter.done (Except.error Error.expectTimeout) st1.stream
        else Iter.more st1
      | Except.ok (f :: fs) =>
        let ei := Found.right_most_index (f :: fs)
        if ei ≤ data.length then
          match st1.stream.consume_from_buffer ei with
          | some s2 => Iter.done (Except.ok ⟨data.take ei, f :: fs⟩) s2
          | none => Iter.panicked
        else Iter.panicked
    else Iter.panicked

/-- Result of running the `expect` loop for at most `fuel` iterations:
`spin` means the budget ran out with the loop still going (e.g. the wall
clock has not advanced far enough yet). -/
inductive ExpectRes
  | ok (f : Found) (s : Stream)
  | err (e : Error) (s : Stream)
  | panicked
  | spin (st : ExpectSt)
deriving DecidableEq, Repr

/-- The `loop` of `Session::expect`, iterated at most `fuel` times starting
at iteration index `i`; `el i` is the value of `start.elapsed() > timeout`
observed at the end of iteration `i`. -/
def expectLoop (n : Needle) (tset : Bool) (el : Nat → Bool) :
    Nat → Nat → ExpectSt → ExpectRes
  | 0, _, st => ExpectRes.spin st
  | fuel + 1, i, st =>
    match expectStep n tset (el i) st with
    | Iter.more st1 => expectLoop n tset el fuel (i + 1) st1
    | Iter.done (Except.ok f) s => ExpectRes.ok f s
    | Iter.done (Except.error e) s => ExpectRes.err e s
    | Iter.panicked => ExpectRes.panicked

/-- `Session::expect`: run the loop from `checking_data_length = 0`,
`eof = false`; the timeout test only runs when a timeout is configured. -/
def Session.expect (sess : Session) (n : Needle) (el : Nat → Bool) (fuel : Nat) : ExpectRes :=
  expectLoop n sess.expect_timeout.isSome el fuel 0 ⟨sess.stream, 0, false⟩

/-- The `(data, eof)` argument pair the iteration starting at `st` passes to
the needle (`none` when the read fails first, so the needle is not invoked). -/
def expectCall (st : ExpectSt) : Option (List Nat × Bool) :=
  match expectAdvance st with
  | (some _, _) => none
  | (none, st1) =>
    if st1.k ≤ st1.stream.buffer.length then
      some (st1.stream.buffer.take st1.k, st1.eof)
    else none

/-- `expectLoop` instrumented with the sequence of needle invocations
(the `(data, eof)` pairs, in order). -/
def expectLoopTr (n : Needle) (tset : Bool) (el : Nat → Bool) :
    Nat → Nat → ExpectSt → ExpectRes × List (List Nat × Bool)
  | 0, _, st => (ExpectRes.spin st, [])
  | fuel + 1, i, st =>
    let c := (expectCall st).toList
    match expectStep n tset (el i) st with
    | Iter.more st1 =>
      let p := expectLoopTr n tset el fuel (i + 1) st1
      (p.1, c ++ p.2)
    | Iter.done (Except.ok f) s => (ExpectRes.ok f s, c)
    | Iter.done (Except.error e) s => (ExpectRes.err e s, c)
    | Iter.panicked => (ExpectRes.panicked, c)

/-- Result of `Session::check` / its slicing panic. -/
inductive CheckRes
  | ok (f : Found) (s : Stream)
  | err (e : Error) (s : Stream)
  | panicked
deriving DecidableEq, Repr

/-- `Session::check` (lines 226-243 of session.rs), as a function of the
stream: one `read_available`, one needle invocation on the whole retention
buffer; on records, slice and consume up to the right-most index; on EOF
without records fail with `Eof`; otherwise an empty `Found`. -/
def checkStream (s : Stream) (n : Needle) : CheckRes :=
  match s.read_available with
  | (Except.error e, s1) => CheckRes.err (Error.io e) s1
  | (Except.ok eof, s1) =>
    let buf := s1.get_available
    match n buf eof with
    | Except.error e => CheckRes.err e s1
    | Except.ok [] =>
      if eof then CheckRes.err Error.eof s1 else CheckRes.ok ⟨[], []⟩ s1
    | Except.ok (f :: fs) =>
      let ei := Found.right_most_index (f :: fs)
      if ei ≤ buf.length then
        match s1.consume_from_buffer ei with
        | some s2 => CheckRes.ok ⟨buf.take ei, f :: fs⟩ s2
        | none => CheckRes.panicked
      else CheckRes.panicked

/-- `Session::check` on a session. -/
def Session.check (sess : Session) (n : Needle) : CheckRes :=
  checkStream sess.stream n

/-- `Session::is_matched` (lines 307-322 of session.rs), as a function of
the stream: like `check` but never consumes; returns whether the needle
found at least one record. -/
def isMatchedStream (s : Stream) (n : Needle) : Except Error Bool × Stream :=
  match s.read_available with
  | (Except.error e, s1) => (Except.error (Error.io e), s1)
  | (Except.ok eof, s1) =>
    match n s1.get_available eof with
    | Except.error e => (Except.error e, s1)
    | Except.ok [] =>
      if eof then (Except.error Error.eof, s1) else (Except.ok false, s1)
    | Except.ok (_ :: _) => (Except.ok true, s1)

/-- `Session::is_matched` on a session. -/
def Session.is_matched (sess : Session) (n : Needle) : Except Error Bool × Stream :=
  isMatchedStream sess.stream n

/-- Two successive `is_matched` calls with the same needle and no
intervening writes; `arrival` is whatever the child emits between the two
calls (appended to the fd's pending data). -/
def is_matched_twice (s : Stream) (n : Needle) (arrival : List Nat) :
    Except Error Bool × Except Error Bool :=
  let p1 := isMatchedStream s n
  let s2 := { p1.2 with fdData := p1.2.fdData ++ arrival }
  (p1.1, (isMatchedStream s2 n).1)

/-- The outcome of `read_available` as a function of the fd terminal state. -/
def fdEndRes : FdEnd → Except IOKind Bool
  | FdEnd.closed => Except.ok true
  | FdEnd.pending => Except.ok false
  | FdEnd.broken => Except.error IOKind.otherErr

/-- The stream after everything the fd holds has been pulled into the
retention buffer: both upper buffers drained below, fd exhausted, blocking
mode restored. -/
def drained (s : Stream) : Stream :=
  { s with inBuf := [], buffer := totalBytes s, fdData := [], nonBlocking := false }

/-- The spec's description of `check` (section 4.3), written directly from
its words, to be compared with `checkStream`: pull in everything currently
available once, setting `eof` from the fd; ask the needle about the entire
buffer, once; on match drain up to the right-most index and return; on EOF
without match fail with `Eof`; otherwise an empty `Found`. -/
def checkSpec (s : Stream) (n : Needle) : CheckRes :=
  match fdEndRes s.fdEnd with
  | Except.error e => CheckRes.err (Error.io e) (drained s)
  | Except.ok eof =>
    match n (totalBytes s) eof with
    | Except.error e => CheckRes.err e (drained s)
    | Except.ok [] =>
      if eof then CheckRes.err Error.eof (drained s)
      else CheckRes.ok ⟨[], []⟩ (drained s)
    | Except.ok (f :: fs) =>
      let ei := Found.right_most_index (f :: fs)
      if ei ≤ (totalBytes s).length then
        CheckRes.ok ⟨(totalBytes s).take ei, f :: fs⟩
          { drained s with buffer := (totalBytes s).drop ei }
      else CheckRes.panicked

/-- Is this byte an ASCII digit. -/
def isDigit (b : Nat) : Bool := 48 ≤ b && b ≤ 57

/-- Length of the leading run of digit bytes. -/
def digitSpan : List Nat → Nat
  | [] => 0
  | b :: bs => if isDigit b then digitSpan bs + 1 else 0

/-- Offset of the first digit byte, if any. -/
def findDigit : List Nat → Option Nat
  | [] => none
  | b :: bs => if isDigit b then some 0 else (findDigit bs).map (· + 1)

/-- Modelled from the spec: the built-in `Regex` needle of the missing
`expect.rs`, instantiated at the pattern \d+ — succeeds on the first
byte-oriented match over the data (the maximal digit run starting at the
first digit), one record covering the overall match. -/
def regexDigits : Needle := fun data _ =>
  match findDigit data with
  | none => Except.ok []
  | some i => Except.ok [⟨i, i + digitSpan (data.drop i)⟩]

/-- Does `pat` occur at the head of `data`. -/
def startsWith : List Nat → List Nat → Bool
  | _, [] => true
  | [], _ :: _ => false
  | a :: as, b :: bs => a = b && startsWith as bs

/-- Offset of the first occurrence of `pat` in the data, if any. -/
def findSub (pat : List Nat) : List Nat → Option Nat
  | [] => if pat = [] then some 0 else none
  | b :: bs =>
    if startsWith (b :: bs) pat then some 0 else (findSub pat bs).map (· + 1)

/-- Modelled from the spec: the built-in literal-string needle of the
missing `expect.rs` — succeeds when the data contains the pattern, one
record at the first occurrence; empty otherwise. -/
def literalNeedle (pat : List Nat) : Needle := fun data _ =>
  match findSub pat data with
  | none => Except.ok []
  | some i => Except.ok [⟨i, i + pat.length⟩]

/-- A legal custom needle (a pure function of `(data, eof)`): it reports a
match exactly when the data length is even.  Its verdict is not monotone
under data growth. -/
def evenNeedle : Needle := fun data _ =>
  if data.length % 2 = 0 then Except.ok [⟨0, 0⟩] else Except.ok []

/-- A needle that never matches. -/
def neverNeedle : Needle := fun _ _ => Except.ok []

/-- A needle that always matches with a zero-length record. -/
def constNeedle : Needle := fun _ _ => Except.ok [⟨0, 0⟩]

/-- A needle whose reported `end` offset (5) can exceed the data length. -/
def badOffsetNeedle : Needle := fun _ _ => Except.ok [⟨0, 5⟩]

/-- A (legal, if perverse) needle that fails with `Error::ExpectTimeout`. -/
def timeoutNeedle : Needle := fun _ _ => Except.error Error.expectTimeout

/-- A needle whose verdict is monotone: records survive data growth and any
allowed change of the `eof` flag. -/
def MonotoneNeedle (n : Needle) : Prop :=
  ∀ d t e e2, (e = true → e2 = true) →
    (∃ f fs, n d e = Except.ok (f :: fs)) →
    ∃ f fs, n (d ++ t) e2 = Except.ok (f :: fs)

/-! ## Stream lemmas -/

theorem read_available_go_spec : ∀ (fuel : Nat) (s : Stream), s.fdData.length < fuel →
    read_available_go fuel s =
      (fdEndRes s.fdEnd,
       { s with buffer := s.buffer ++ s.fdData, fdData := [], nonBlocking := false }) := by
  intro fuel
  induction fuel with
  | zero => intro s h; omega
  | succ fuel ih =>
    intro s h
    obtain ⟨ib, bf, fd, fe, nb⟩ := s
    cases fd with
    | nil =>
      cases fe <;>
        simp [read_available_go, Stream.try_read_inner, fdRead,
          Stream.set_non_blocking_output, Stream.set_blocking_output,
          _make_non_blocking, fdEndRes]
    | cons x xs =>
      have ht : (x :: xs).take 248 = x :: xs.take 247 := rfl
      have hd : (x :: xs).drop 248 = xs.drop 247 := rfl
      simp only [read_available_go, Stream.try_read_inner, fdRead,
        Stream.set_non_blocking_output, Stream.set_blocking_output,
        _make_non_blocking, ht, hd, Stream.keep_in_buffer]
      rw [ih]
      · simp [List.append_assoc]
      · simp only [List.length_drop, List.length_cons] at h ⊢
        omega

/-- `read_available` drains the upper buffer and everything the fd holds
into the retention buffer and reports the fd terminal state. -/
theorem read_available_spec (s : Stream) :
    s.read_available = (fdEndRes s.fdEnd, drained s) := by
  obtain ⟨ib, bf, fd, fe, nb⟩ := s
  show read_available_go (fd.length + 1) _ = _
  simp only [Stream.flush_in_buffer]
  rw [read_available_go_spec (fd.length + 1) ⟨[], bf ++ ib, fd, fe, nb⟩ (by simp)]
  simp [drained, totalBytes, List.append_assoc]

/-- `read_available_once` with a one-byte scratch: flush, then either learn
the fd terminal state or pull exactly one byte into the retention buffer. -/
theorem read_available_once_one_spec (s : Stream) :
    s.read_available_once 1 =
      (match s.fdData with
       | [] =>
         ((match s.fdEnd with
           | FdEnd.closed => Except.ok (some 0)
           | FdEnd.pending => Except.ok none
           | FdEnd.broken => Except.error IOKind.otherErr),
          { s with inBuf := [], buffer := s.buffer ++ s.inBuf, nonBlocking := false })
       | x :: xs =>
         (Except.ok (some 1),
          { s with
              inBuf := []
              buffer := (s.buffer ++ s.inBuf) ++ [x]
              fdData := xs
              nonBlocking := false })) := by
  obtain ⟨ib, bf, fd, fe, nb⟩ := s
  cases fd with
  | nil => cases fe <;> rfl
  | cons x xs => rfl

theorem try_read_flag (s : Stream) (m : Nat) : (s.try_read m).2.nonBlocking = false := rfl

theorem try_read_inner_flag (s : Stream) (m : Nat) :
    (s.try_read_inner m).2.nonBlocking = false := rfl

theorem read_available_flag (s : Stream) : s.read_available.2.nonBlocking = false := by
  rw [read_available_spec]
  simp [drained]

theorem read_available_once_flag (s : Stream) (m : Nat) :
    (s.read_available_once m).2.nonBlocking = false := by
  show (match (s.flush_in_buffer).try_read_inner m with
    | (Except.ok [], s1) => (Except.ok (some 0), s1)
    | (Except.ok (b :: bs), s1) => (Except.ok (some (b :: bs).length), s1.keep_in_buffer (b :: bs))
    | (Except.error IOKind.wouldBlock, s1) => (Except.ok none, s1)
    | (Except.error e, s1) => (Except.error e, s1)).2.nonBlocking = false
  have hf := try_read_inner_flag s.flush_in_buffer m
  rcases hp : (s.flush_in_buffer).try_read_inner m with ⟨r, s1⟩
  rw [hp] at hf
  rcases r with e | l
  · cases e <;> simpa using hf
  · cases l <;> simpa [Stream.keep_in_buffer] using hf

/-! ## Lemmas about one read/advance phase of the expect loop -/

/-- The advance phase only moves bytes between the fd and the buffers: the
total unconsumed byte sequence is unchanged. -/
theorem expectAdvance_total (st : ExpectSt) :
    totalBytes (expectAdvance st).2.stream = totalBytes st.stream := by
  obtain ⟨⟨ib, bf, fd, fe, nb⟩, k, eof⟩ := st
  simp only [expectAdvance, read_available_once_one_spec]
  by_cases hk : k = bf.length
  · cases fd with
    | nil => cases fe <;> simp [hk, totalBytes]
    | cons x xs => simp [hk, totalBytes]
  · simp [hk]

/-- The advance phase only appends to the retention buffer. -/
theorem expectAdvance_ext (st : ExpectSt) :
    ∃ t, (expectAdvance st).2.stream.buffer = st.stream.buffer ++ t := by
  obtain ⟨⟨ib, bf, fd, fe, nb⟩, k, eof⟩ := st
  simp only [expectAdvance, read_available_once_one_spec]
  by_cases hk : k = bf.length
  · cases fd with
    | nil => cases fe <;> simp [hk]
    | cons x xs => simp [hk]
  · simp [hk]

/-- The advance phase does not change the fd terminal state. -/
theorem expectAdvance_fdEnd (st : ExpectSt) :
    (expectAdvance st).2.stream.fdEnd = st.stream.fdEnd := by
  obtain ⟨⟨ib, bf, fd, fe, nb⟩, k, eof⟩ := st
  simp only [expectAdvance, read_available_once_one_spec]
  by_cases hk : k = bf.length
  · cases fd with
    | nil => cases fe <;> simp [hk]
    | cons x xs => simp [hk]
  · simp [hk]

/-- When the read did not fail, the cursor advances by exactly one precisely
when it is strictly below the refreshed available length (lines 185-187 of
session.rs). -/
theorem expectAdvance_k (st : ExpectSt) (h : (expectAdvance st).1 = none) :
    (expectAdvance st).2.k =
      if st.k < (expectAdvance st).2.stream.buffer.length then st.k + 1 else st.k := by
  obtain ⟨⟨ib, bf, fd, fe, nb⟩, k, eof⟩ := st
  simp only [expectAdvance, read_available_once_one_spec] at h ⊢
  by_cases hk : k = bf.length
  · cases fd with
    | nil => cases fe <;> simp_all [hk]
    | cons x xs => simp [hk]
  · simp [hk]

/-- The advance phase preserves the invariant that the cursor does not pass
the end of the retention buffer. -/
theorem expectAdvance_kle (st : ExpectSt) (h : st.k ≤ st.stream.buffer.length) :
    (expectAdvance st).2.k ≤ (expectAdvance st).2.stream.buffer.length := by
  obtain ⟨⟨ib, bf, fd, fe, nb⟩, k, eof⟩ := st
  simp only [expectAdvance, read_available_once_one_spec] at h ⊢
  by_cases hk : k = bf.length
  · cases fd with
    | nil =>
      cases fe <;> simp [hk] <;> split <;> simp_all <;> omega
    | cons x xs => simp [hk]
  · simp [hk]
    split <;> omega

/-- The advance phase never refills the upper line-buffer. -/
theorem expectAdvance_inBuf (st : ExpectSt) (h : st.stream.inBuf = []) :
    (expectAdvance st).2.stream.inBuf = [] := by
  obtain ⟨⟨ib, bf, fd, fe, nb⟩, k, eof⟩ := st
  subst h
  simp only [expectAdvance, read_available_once_one_spec]
  by_cases hk : k = bf.length
  · cases fd with
    | nil => cases fe <;> simp [hk]
    | cons x xs => simp [hk]
  · simp [hk]

/-- If the upper line-buffer was empty and the advance phase turned the
`eof` flag on, then the zero-length read changed nothing and the cursor
stands exactly at the end of the retention buffer, which itself is
unchanged: the needle will be offered the full retained data. -/
theorem expectAdvance_eofFull (st : ExpectSt) (hib : st.stream.inBuf = [])
    (he : st.eof = false) (h2 : (expectAdvance st).2.eof = true) :
    (expectAdvance st).2.k = (expectAdvance st).2.stream.buffer.length ∧
    (expectAdvance st).2.stream.buffer = st.stream.buffer := by
  obtain ⟨⟨ib, bf, fd, fe, nb⟩, k, eof⟩ := st
  subst hib
  simp only at he
  subst he
  simp only [expectAdvance, read_available_once_one_spec] at h2 ⊢
  by_cases hk : k = bf.length
  · cases fd with
    | nil => cases fe <;> simp_all [hk]
    | cons x xs => simp_all [hk]
  · simp_all [hk]

/-! ## Lemmas about one iteration of the expect loop -/

/-- Inversion of a continuing iteration: the loop continues exactly with the
advanced state, with the needle having returned no records, no EOF seen and
the timeout test negative. -/
theorem expectStep_more (n : Needle) (tset el : Bool) (st st1 : ExpectSt)
    (h : expectStep n tset el st = Iter.more st1) :
    expectAdvance st = (none, st1) ∧ st1.eof = false ∧ (tset && el) = false ∧
    n (st1.stream.buffer.take st1.k) st1.eof = Except.ok [] := by
  unfold expectStep at h
  rcases hadv : expectAdvance st with ⟨e, sta⟩
  rw [hadv] at h
  cases e with
  | some e => simp at h
  | none =>
    simp only at h
    split at h
    case isFalse => simp at h
    case isTrue hle =>
      split at h
      case h_1 e2 hn => simp at h
      case h_2 hn =>
        split at h
        case isTrue he => simp at h
        case isFalse he =>
          split at h
          case isTrue ht => simp at h
          case isFalse ht =>
            injection h with h1
            subst h1
            refine ⟨rfl, ?_, ?_, hn⟩
            · simpa using he
            · simpa using ht
      case h_3 f fs hn =>
        split at h
        case isTrue hei =>
          split at h
          case h_1 s2 hc => simp at h
          case h_2 hc => simp at h
        case isFalse hei => simp at h

/-- A successful iteration returns bytes whose length is the right-most
index of the records, and consumes exactly those bytes from the front of
the unconsumed stream. -/
theorem expectStep_ok (n : Needle) (tset el : Bool) (st : ExpectSt) (f : Found) (s2 : Stream)
    (hk : st.k ≤ st.stream.buffer.length)
    (h : expectStep n tset el st = Iter.done (Except.ok f) s2) :
    f.bytes.length = Found.right_most_index f.records ∧
    f.bytes ++ totalBytes s2 = totalBytes st.stream := by
  have hk1 := expectAdvance_kle st hk
  have htot := expectAdvance_total st
  unfold expectStep at h
  rcases hadv : expectAdvance st with ⟨e, sta⟩
  rw [hadv] at h hk1 htot
  cases e with
  | some e => simp at h
  | none =>
    simp only at h hk1 htot
    split at h
    case isFalse h2 => exact absurd hk1 h2
    case isTrue hle =>
      split at h
      case h_1 e2 hn => simp at h
      case h_2 hn =>
        split at h
        · simp at h
        · split at h <;> simp at h
      case h_3 f0 fs hn =>
        split at h
        case isFalse hei => simp at h
        case isTrue hei =>
          split at h
          case h_2 hc => simp at h
          case h_1 s2v hc =>
            simp only [Iter.done.injEq, Except.ok.injEq] at h
            obtain ⟨rfl, rfl⟩ := h
            unfold Stream.consume_from_buffer at hc
            split at hc
            case isFalse => simp at hc
            case isTrue hle2 =>
              simp only [Option.some.injEq] at hc
              subst hc
              have hdl : (sta.stream.buffer.take sta.k).length = sta.k := by
                simp [List.length_take]; omega
              rw [hdl] at hei
              constructor
              · simp [List.length_take]
                omega
              · rw [List.take_take]
                have hmin : min (Found.right_most_index (f0 :: fs)) sta.k =
                    Found.right_most_index (f0 :: fs) := by omega
                rw [hmin, ← htot]
                simp only [totalBytes, List.append_assoc]
                rw [← List.append_assoc, List.take_append_drop]

/-- A failing iteration consumes nothing: the stream it reports keeps every
byte (the retention buffer has only grown). -/
theorem expectStep_err (n : Needle) (tset el : Bool) (st : ExpectSt) (e : Error) (s2 : Stream)
    (h : expectStep n tset el st = Iter.done (Except.error e) s2) :
    totalBytes s2 = totalBytes st.stream ∧ ∃ t, s2.buffer = st.stream.buffer ++ t := by
  have htot := expectAdvance_total st
  have hext := expectAdvance_ext st
  unfold expectStep at h
  rcases hadv : expectAdvance st with ⟨e0, sta⟩
  rw [hadv] at h htot hext
  cases e0 with
  | some e0 =>
    simp only [Iter.done.injEq] at h
    obtain ⟨-, rfl⟩ := h
    exact ⟨htot, hext⟩
  | none =>
    simp only at h htot hext
    split at h
    case isFalse => simp at h
    case isTrue hle =>
      split at h
      case h_1 e2 hn =>
        simp only [Iter.done.injEq] at h
        obtain ⟨-, rfl⟩ := h
        exact ⟨htot, hext⟩
      case h_2 hn =>
        split at h
        · simp only [Iter.done.injEq] at h
          obtain ⟨-, rfl⟩ := h
          exact ⟨htot, hext⟩
        · split at h
          · simp only [Iter.done.injEq] at h
            obtain ⟨-, rfl⟩ := h
            exact ⟨htot, hext⟩
          · simp at h
      case h_3 f0 fs hn =>
        split at h
        case isFalse hei => simp at h
        case isTrue hei =>
          split at h <;> simp at h

/-- When the upper line-buffer is empty and the iteration starts with
`eof = false`, an `Err(Eof)` outcome means the needle was asked, in this
very iteration, about the full retained data with `eof = true` and returned
no records (assuming the needle does not itself fail with `Eof`). -/
theorem expectStep_eofE (n : Needle) (tset el : Bool) (st : ExpectSt) (s2 : Stream)
    (hib : st.stream.inBuf = []) (heof : st.eof = false)
    (hne : ∀ d e, n d e ≠ Except.error Error.eof)
    (h : expectStep n tset el st = Iter.done (Except.error Error.eof) s2) :
    n s2.buffer true = Except.ok [] := by
  have hfull := expectAdvance_eofFull st hib heof
  unfold expectStep at h
  rcases hadv : expectAdvance st with ⟨e0, sta⟩
  rw [hadv] at h hfull
  cases e0 with
  | some e0 => simp at h
  | none =>
    simp only at h hfull
    split at h
    case isFalse => simp at h
    case isTrue hle =>
      split at h
      case h_1 e2 hn =>
        simp only [Iter.done.injEq, Except.error.injEq] at h
        obtain ⟨rfl, rfl⟩ := h
        exact absurd hn (hne _ _)
      case h_2 hn =>
        split at h
        case isTrue he =>
          simp only [Iter.done.injEq] at h
          obtain ⟨-, rfl⟩ := h
          obtain ⟨hkl, -⟩ := hfull he
          rw [hkl, List.take_length] at hn
          rw [← he]
          exact hn
        case isFalse he =>
          split at h <;> simp at h
      case h_3 f0 fs hn =>
        split at h
        case isFalse hei => simp at h
        case isTrue hei => split at h <;> simp at h

/-- With no timeout configured the iteration never produces
`Err(ExpectTimeout)` of its own (only a needle could). -/
theorem expectStep_noTimeout (n : Needle) (el : Bool) (st : ExpectSt) (s2 : Stream)
    (hn : ∀ d e, n d e ≠ Except.error Error.expectTimeout) :
    expectStep n false el st ≠ Iter.done (Except.error Error.expectTimeout) s2 := by
  intro h
  unfold expectStep at h
  rcases hadv : expectAdvance st with ⟨e0, sta⟩
  rw [hadv] at h
  cases e0 with
  | some e0 => simp at h
  | none =>
    simp only at h
    split at h
    case isFalse => simp at h
    case isTrue hle =>
      split at h
      case h_1 e2 hn2 =>
        simp only [Iter.done.injEq, Except.error.injEq] at h
        obtain ⟨rfl, -⟩ := h
        exact absurd hn2 (hn _ _)
      case h_2 hn2 =>
        split at h
        · simp at h
        · split at h <;> simp_all
      case h_3 f0 fs hn2 =>
        split at h
        case isFalse hei => simp at h
        case isTrue hei => split at h <;> simp at h

/-- When every record the needle reports ends inside the data it was given,
an iteration can never panic. -/
theorem expectStep_noPanic (n : Needle) (tset el : Bool) (st : ExpectSt)
    (hb : ∀ d e fs, n d e = Except.ok fs → Found.right_most_index fs ≤ d.length)
    (hk : st.k ≤ st.stream.buffer.length) :
    expectStep n tset el st ≠ Iter.panicked := by
  intro h
  have hk1 := expectAdvance_kle st hk
  unfold expectStep at h
  rcases hadv : expectAdvance st with ⟨e0, sta⟩
  rw [hadv] at h hk1
  cases e0 with
  | some e0 => simp at h
  | none =>
    simp only at h hk1
    split at h
    case isFalse hle => exact hle hk1
    case isTrue hle =>
      split at h
      case h_1 e2 hn => simp at h
      case h_2 hn =>
        split at h
        · simp at h
        · split at h <;> simp at h
      case h_3 f0 fs hn =>
        have hbd := hb _ _ _ hn
        split at h
        case isFalse hei => exact hei hbd
        case isTrue hei =>
          split at h
          case h_1 s2v hc => simp at h
          case h_2 hc =>
            unfold Stream.consume_from_buffer at hc
            split at hc
            case isTrue => simp at hc
            case isFalse hle2 =>
              refine hle2 ?_
              calc Found.right_most_index (f0 :: fs)
                  ≤ (sta.stream.buffer.take sta.k).length := hbd
                _ ≤ sta.stream.buffer.length := by simp [List.length_take]

/-! ## Lemmas about the whole expect loop -/

/-- Any successful run of the loop returns bytes whose length is the
right-most index, and consumes exactly those bytes from the front of the
unconsumed stream. -/
theorem expectLoop_ok (n : Needle) (tset : Bool) (el : Nat → Bool) :
    ∀ (fuel i : Nat) (st : ExpectSt) (f : Found) (s2 : Stream),
    st.k ≤ st.stream.buffer.length →
    expectLoop n tset el fuel i st = ExpectRes.ok f s2 →
    f.bytes.length = Found.right_most_index f.records ∧
    f.bytes ++ totalBytes s2 = totalBytes st.stream := by
  intro fuel
  induction fuel with
  | zero => intro i st f s2 hk h; simp [expectLoop] at h
  | succ fuel ih =>
    intro i st f s2 hk h
    rw [expectLoop] at h
    cases hs : expectStep n tset (el i) st with
    | more st1 =>
      rw [hs] at h
      obtain ⟨hadv, -, -, -⟩ := expectStep_more _ _ _ _ _ hs
      have hk1 := expectAdvance_kle st hk
      have htot := expectAdvance_total st
      rw [hadv] at hk1 htot
      have hih := ih (i + 1) st1 f s2 hk1 h
      exact ⟨hih.1, by rw [hih.2, htot]⟩
    | done r s3 =>
      rw [hs] at h
      cases r with
      | ok f2 =>
        simp only [ExpectRes.ok.injEq] at h
        obtain ⟨rfl, rfl⟩ := h
        exact expectStep_ok _ _ _ _ _ _ hk hs
      | error e => simp at h
    | panicked =>
      rw [hs] at h
      simp at h

/-- Any failing run of the loop consumes nothing: the total unconsumed byte
sequence is preserved and the retention buffer has only grown. -/
theorem expectLoop_err (n : Needle) (tset : Bool) (el : Nat → Bool) :
    ∀ (fuel i : Nat) (st : ExpectSt) (e : Error) (s2 : Stream),
    expectLoop n tset el fuel i st = ExpectRes.err e s2 →
    totalBytes s2 = totalBytes st.stream ∧
    ∃ t, s2.buffer = st.stream.buffer ++ t := by
  intro fuel
  induction fuel with
  | zero => intro i st e s2 h; simp [expectLoop] at h
  | succ fuel ih =>
    intro i st e s2 h
    rw [expectLoop] at h
    cases hs : expectStep n tset (el i) st with
    | more st1 =>
      rw [hs] at h
      obtain ⟨hadv, -, -, -⟩ := expectStep_more _ _ _ _ _ hs
      have htot := expectAdvance_total st
      have hext := expectAdvance_ext st
      rw [hadv] at htot hext
      obtain ⟨h1, t2, h2⟩ := ih (i + 1) st1 e s2 h
      refine ⟨by rw [h1, htot], ?_⟩
      obtain ⟨t1, h3⟩ := hext
      exact ⟨t1 ++ t2, by rw [h2, h3, List.append_assoc]⟩
    | done r s3 =>
      rw [hs] at h
      cases r with
      | ok f2 => simp at h
      | error e2 =>
        simp only [ExpectRes.err.injEq] at h
        obtain ⟨rfl, rfl⟩ := h
        exact expectStep_err _ _ _ _ _ _ hs
    | panicked =>
      rw [hs] at h
      simp at h

/-- When the loop starts with an empty upper line-buffer, `eof = false` and
a needle that never itself fails with `Eof`, an `Err(Eof)` outcome means
the final iteration invoked the needle on the full retained data with
`eof = true` and it returned no records. -/
theorem expectLoop_eofE (n : Needle) (tset : Bool) (el : Nat → Bool)
    (hne : ∀ d e, n d e ≠ Except.error Error.eof) :
    ∀ (fuel i : Nat) (st : ExpectSt) (s2 : Stream),
    st.stream.inBuf = [] → st.eof = false →
    expectLoop n tset el fuel i st = ExpectRes.err Error.eof s2 →
    n s2.buffer true = Except.ok [] := by
  intro fuel
  induction fuel with
  | zero => intro i st s2 hib heof h; simp [expectLoop] at h
  | succ fuel ih =>
    intro i st s2 hib heof h
    rw [expectLoop] at h
    cases hs : expectStep n tset (el i) st with
    | more st1 =>
      rw [hs] at h
      obtain ⟨hadv, heof1, -, -⟩ := expectStep_more _ _ _ _ _ hs
      have hib1 := expectAdvance_inBuf st hib
      rw [hadv] at hib1
      exact ih (i + 1) st1 s2 hib1 heof1 h
    | done r s3 =>
      rw [hs] at h
      cases r with
      | ok f2 => simp at h
      | error e2 =>
        simp only [ExpectRes.err.injEq] at h
        obtain ⟨rfl, rfl⟩ := h
        exact expectStep_eofE _ _ _ _ _ hib heof hne hs
    | panicked =>
      rw [hs] at h
      simp at h

/-- With no timeout configured and a needle that never itself fails with
`ExpectTimeout`, the loop never returns `Err(ExpectTimeout)`. -/
theorem expectLoop_noTimeout (n : Needle) (el : Nat → Bool)
    (hn : ∀ d e, n d e ≠ Except.error Error.expectTimeout) :
    ∀ (fuel i : Nat) (st : ExpectSt) (s2 : Stream),
    expectLoop n false el fuel i st ≠ ExpectRes.err Error.expectTimeout s2 := by
  intro fuel
  induction fuel with
  | zero => intro i st s2 h; simp [expectLoop] at h
  | succ fuel ih =>
    intro i st s2 h
    rw [expectLoop] at h
    cases hs : expectStep n false (el i) st with
    | more st1 =>
      rw [hs] at h
      exact ih (i + 1) st1 s2 h
    | done r s3 =>
      rw [hs] at h
      cases r with
      | ok f2 => simp at h
      | error e2 =>
        simp only [ExpectRes.err.injEq] at h
        obtain ⟨rfl, rfl⟩ := h
        exact expectStep_noTimeout _ _ _ _ hn hs
    | panicked =>
      rw [hs] at h
      simp at h

/-- When every record the needle reports ends inside the data it was given,
the loop never panics. -/
theorem expectLoop_noPanic (n : Needle) (tset : Bool) (el : Nat → Bool)
    (hb : ∀ d e fs, n d e = Except.ok fs → Found.right_most_index fs ≤ d.length) :
    ∀ (fuel i : Nat) (st : ExpectSt),
    st.k ≤ st.stream.buffer.length →
    expectLoop n tset el fuel i st ≠ ExpectRes.panicked := by
  intro fuel
  induction fuel with
  | zero => intro i st hk h; simp [expectLoop] at h
  | succ fuel ih =>
    intro i st hk h
    rw [expectLoop] at h
    cases hs : expectStep n tset (el i) st with
    | more st1 =>
      rw [hs] at h
      obtain ⟨hadv, -, -, -⟩ := expectStep_more _ _ _ _ _ hs
      have hk1 := expectAdvance_kle st hk
      rw [hadv] at hk1
      exact ih (i + 1) st1 hk1 h
    | done r s3 =>
      rw [hs] at h
      cases r <;> simp at h
    | panicked => exact expectStep_noPanic _ _ _ _ hb hk hs

/-- The instrumented loop computes the same result as the plain one. -/
theorem expectLoopTr_fst (n : Needle) (tset : Bool) (el : Nat → Bool) :
    ∀ (fuel i : Nat) (st : ExpectSt),
    (expectLoopTr n tset el fuel i st).1 = expectLoop n tset el fuel i st := by
  intro fuel
  induction fuel with
  | zero => intro i st; rfl
  | succ fuel ih =>
    intro i st
    rw [expectLoop, expectLoopTr]
    cases hs : expectStep n tset (el i) st with
    | more st1 => simp [ih]
    | done r s3 => cases r <;> rfl
    | panicked => rfl

/-! ## Characterisations of check and is_matched -/

/-- `is_matched` in explicit form: the verdict depends only on the fd
terminal state and the needle's answer on the whole unconsumed byte
sequence; the retention buffer is never consumed. -/
theorem isMatchedStream_eq (s : Stream) (n : Needle) :
    isMatchedStream s n =
      (match fdEndRes s.fdEnd with
       | Except.error e => (Except.error (Error.io e), drained s)
       | Except.ok eof =>
         match n (totalBytes s) eof with
         | Except.error e => (Except.error e, drained s)
         | Except.ok [] =>
           if eof then (Except.error Error.eof, drained s) else (Except.ok false, drained s)
         | Except.ok (_ :: _) => (Except.ok true, drained s)) := by
  unfold isMatchedStream
  rw [read_available_spec]
  have hbuf : (drained s).get_available = totalBytes s := rfl
  cases hfe : s.fdEnd with
  | broken => simp [fdEndRes]
  | closed => simp only [fdEndRes, hbuf]
  | pending => simp only [fdEndRes, hbuf]

/-- `is_matched` when the fd read fails. -/
theorem isMatchedStream_eq_err (s : Stream) (n : Needle) (e : IOKind)
    (hfd : fdEndRes s.fdEnd = Except.error e) :
    isMatchedStream s n = (Except.error (Error.io e), drained s) := by
  rw [isMatchedStream_eq, hfd]

/-- `is_matched` when the fd read succeeds with flag `eof`. -/
theorem isMatchedStream_eq_ok (s : Stream) (n : Needle) (eof : Bool)
    (hfd : fdEndRes s.fdEnd = Except.ok eof) :
    isMatchedStream s n =
      match n (totalBytes s) eof with
      | Except.error e => (Except.error e, drained s)
      | Except.ok [] =>
        if eof then (Except.error Error.eof, drained s) else (Except.ok false, drained s)
      | Except.ok (_ :: _) => (Except.ok true, drained s) := by
  rw [isMatchedStream_eq, hfd]

/-- `is_matched` never consumes: its resulting stream is always the fully
drained one, whatever the outcome. -/
theorem isMatched_snd (s : Stream) (n : Needle) : (isMatchedStream s n).2 = drained s := by
  rcases hfd : fdEndRes s.fdEnd with e | eof
  · rw [isMatchedStream_eq_err s n e hfd]
  · rw [isMatchedStream_eq_ok s n eof hfd]
    rcases hn : n (totalBytes s) eof with e2 | fs
    · rfl
    · cases fs with
      | nil => cases eof <;> rfl
      | cons f fs => rfl

/-- Inversion of a `true` verdict of `is_matched`: the fd read succeeded
and the needle returned at least one record on the whole drained data. -/
theorem isMatched_true_inv (s : Stream) (n : Needle)
    (h : (isMatchedStream s n).1 = Except.ok true) :
    ∃ eof, fdEndRes s.fdEnd = Except.ok eof ∧
      ∃ f fs, n (totalBytes s) eof = Except.ok (f :: fs) := by
  rcases hfd : fdEndRes s.fdEnd with e | eof
  · rw [isMatchedStream_eq_err s n e hfd] at h
    simp at h
  · rw [isMatchedStream_eq_ok s n eof hfd] at h
    rcases hn : n (totalBytes s) eof with e2 | fs
    · rw [hn] at h
      simp at h
    · rw [hn] at h
      cases fs with
      | nil => cases eof <;> simp at h
      | cons f fs => exact ⟨eof, rfl, f, fs, hn⟩

/-- Forward direction: a successful read plus a non-empty record list make
`is_matched` answer `true`. -/
theorem isMatched_true_fwd (s : Stream) (n : Needle) (eof : Bool) (f : Match)
    (fs : List Match) (hfd : fdEndRes s.fdEnd = Except.ok eof)
    (hn : n (totalBytes s) eof = Except.ok (f :: fs)) :
    (isMatchedStream s n).1 = Except.ok true := by
  rw [isMatchedStream_eq_ok s n eof hfd, hn]

/-! ## Claim theorems -/

/-- C1: the expect loop is byte-incremental — whenever the cursor is
strictly below the retained-data length after the read phase, it advances
by exactly one, so the needle sees strictly growing prefixes and expect
returns on the first prefix that matches; consequently, against a child
delivering the bytes of `123`, `expect(Regex("\d+"))` succeeds on the
one-byte prefix and returns `b"1"` (while the greedy `check` on the same
stream returns `b"123"`). -/
theorem C1_expect_byte_incremental :
    (∀ (st st1 : ExpectSt), expectAdvance st = (none, st1) →
      st.k < st1.stream.buffer.length → st1.k = st.k + 1) ∧
    Session.expect (Session.spawn [49, 50, 51] FdEnd.closed) regexDigits (fun _ => false) 5 =
      ExpectRes.ok ⟨[49], [⟨0, 1⟩]⟩ ⟨[], [], [50, 51], FdEnd.closed, false⟩ ∧
    checkStream (Stream.new [49, 50, 51] FdEnd.closed) regexDigits =
      CheckRes.ok ⟨[49, 50, 51], [⟨0, 3⟩]⟩ ⟨[], [], [], FdEnd.closed, false⟩ := by
  refine ⟨?_, by decide, by decide⟩
  intro st st1 hadv hlt
  have hk := expectAdvance_k st (by rw [hadv])
  rw [hadv] at hk
  simpa [hlt] using hk

/-- Witness for C1: the cursor advancement at a concrete state whose cursor
is strictly below the retained length. -/
theorem C1_witness :
    (⟨⟨[], [5], [], FdEnd.pending, false⟩, 1, false⟩ : ExpectSt).k =
      (⟨⟨[], [5], [], FdEnd.pending, false⟩, 0, false⟩ : ExpectSt).k + 1 :=
  C1_expect_byte_incremental.1 ⟨⟨[], [5], [], FdEnd.pending, false⟩, 0, false⟩
    ⟨⟨[], [5], [], FdEnd.pending, false⟩, 1, false⟩ (by decide) (by decide)

/-- C2: every successful expect returns bytes whose length equals the
maximum end offset over the needle's records (the right-most index), and
exactly that many bytes are consumed from the front of the unconsumed byte
sequence. -/
theorem C2_expect_ok_consumes_rightmost (sess : Session) (n : Needle) (el : Nat → Bool)
    (fuel : Nat) (f : Found) (s2 : Stream)
    (h : Session.expect sess n el fuel = ExpectRes.ok f s2) :
    f.bytes.length = Found.right_most_index f.records ∧
    f.bytes ++ totalBytes s2 = totalBytes sess.stream :=
  expectLoop_ok n sess.expect_timeout.isSome el fuel 0 ⟨sess.stream, 0, false⟩ f s2
    (Nat.zero_le _) h

/-- Witness for C2 on the `echo 123` / `\d+` run. -/
theorem C2_witness :
    (⟨[49], [⟨0, 1⟩]⟩ : Found).bytes.length =
      Found.right_most_index (⟨[49], [⟨0, 1⟩]⟩ : Found).records ∧
    (⟨[49], [⟨0, 1⟩]⟩ : Found).bytes ++
        totalBytes ⟨[], [], [50, 51], FdEnd.closed, false⟩ =
      totalBytes (Session.spawn [49, 50, 51] FdEnd.closed).stream :=
  C2_expect_ok_consumes_rightmost (Session.spawn [49, 50, 51] FdEnd.closed) regexDigits
    (fun _ => false) 5 ⟨[49], [⟨0, 1⟩]⟩ ⟨[], [], [50, 51], FdEnd.closed, false⟩ (by decide)

/-- C3 counterexample: with two bytes sitting in the upper line-buffer and
the fd already closed, expect returns `Err(Eof)` although the only needle
invocation (recorded by the instrumented loop) saw the one-byte prefix
`[97]` — not the full retained data `[97, 98]` as it stands after the
zero-length read. -/
theorem C3_counterexample :
    (expectLoopTr neverNeedle false (fun _ => false) 5 0
        ⟨⟨[97, 98], [], [], FdEnd.closed, false⟩, 0, false⟩).1 =
      ExpectRes.err Error.eof ⟨[], [97, 98], [], FdEnd.closed, false⟩ ∧
    (expectLoopTr neverNeedle false (fun _ => false) 5 0
        ⟨⟨[97, 98], [], [], FdEnd.closed, false⟩, 0, false⟩).2 = [([97], true)] ∧
    ∀ c ∈ (expectLoopTr neverNeedle false (fun _ => false) 5 0
        ⟨⟨[97, 98], [], [], FdEnd.closed, false⟩, 0, false⟩).2,
      c.1 ≠ [97, 98] := by decide

/-- C3 (amended): provided the upper line-buffer is empty when `expect` is
called (true in particular for every freshly spawned session and whenever
the caller never used the buffered read interface) and the needle does not
itself fail with `Eof`, `expect` returns `Err(Eof)` only after invoking the
needle, in that same final iteration, with `eof = true` on the full
retained data as it stands after the zero-length read — and only because
that invocation returned no records. -/
theorem C3_eof_full_data (sess : Session) (n : Needle) (el : Nat → Bool)
    (fuel : Nat) (s2 : Stream)
    (hib : sess.stream.inBuf = [])
    (hne : ∀ d e, n d e ≠ Except.error Error.eof)
    (h : Session.expect sess n el fuel = ExpectRes.err Error.eof s2) :
    n s2.buffer true = Except.ok [] :=
  expectLoop_eofE n sess.expect_timeout.isSome el hne fuel 0 ⟨sess.stream, 0, false⟩ s2
    hib rfl h

/-- Witness for the amended C3 on a child that exits immediately. -/
theorem C3_witness : neverNeedle ([] : List Nat) true = Except.ok [] :=
  C3_eof_full_data (Session.spawn [] FdEnd.closed) neverNeedle (fun _ => false) 2
    ⟨[], [], [], FdEnd.closed, false⟩ rfl (fun d e => by simp [neverNeedle]) (by decide)

/-- C4: when expect fails, nothing has been consumed — the unconsumed byte
sequence is intact and the retention buffer has only grown; concretely, a
silent child makes expect time out, an immediately repeated expect with the
same needle and timeout times out again (not `Eof`, no panic), and a retry
can still match previously accumulated bytes (a first timed-out call reads
the byte `97` into the buffer, a retry of the same `literal("ab")` needle
then matches both bytes). -/
theorem C4_expect_err_retains_buffer :
    (∀ (sess : Session) (n : Needle) (el : Nat → Bool) (fuel : Nat) (e : Error) (s2 : Stream),
      Session.expect sess n el fuel = ExpectRes.err e s2 →
      totalBytes s2 = totalBytes sess.stream ∧
      ∃ t, s2.buffer = sess.stream.buffer ++ t) ∧
    Session.expect ((Session.spawn [] FdEnd.pending).set_expect_timeout (some 50))
        (literalNeedle [120]) (fun _ => true) 5 =
      ExpectRes.err Error.expectTimeout (Stream.new [] FdEnd.pending) ∧
    Session.expect { stream := Stream.new [] FdEnd.pending, expect_timeout := some 50 }
        (literalNeedle [120]) (fun _ => true) 5 =
      ExpectRes.err Error.expectTimeout (Stream.new [] FdEnd.pending) ∧
    Session.expect (Session.spawn [97, 98] FdEnd.pending) (literalNeedle [97, 98])
        (fun _ => true) 5 =
      ExpectRes.err Error.expectTimeout ⟨[], [97], [98], FdEnd.pending, false⟩ ∧
    Session.expect (⟨⟨[], [97], [98], FdEnd.pending, false⟩, some 10000⟩ : Session)
        (literalNeedle [97, 98]) (fun _ => false) 5 =
      ExpectRes.ok ⟨[97, 98], [⟨0, 2⟩]⟩ ⟨[], [], [], FdEnd.pending, false⟩ := by
  refine ⟨?_, by decide, by decide, by decide, by decide⟩
  intro sess n el fuel e s2 h
  exact expectLoop_err n sess.expect_timeout.isSome el fuel 0 ⟨sess.stream, 0, false⟩ e s2 h

/-- Witness for C4's quantified part on the silent-child timeout run. -/
theorem C4_witness :
    totalBytes (Stream.new [] FdEnd.pending) =
      totalBytes ((Session.spawn [] FdEnd.pending).set_expect_timeout (some 50)).stream ∧
    ∃ t, (Stream.new [] FdEnd.pending).buffer =
      ((Session.spawn [] FdEnd.pending).set_expect_timeout (some 50)).stream.buffer ++ t :=
  C4_expect_err_retains_buffer.1 ((Session.spawn [] FdEnd.pending).set_expect_timeout (some 50))
    (literalNeedle [120]) (fun _ => true) 5 Error.expectTimeout (Stream.new [] FdEnd.pending)
    (by decide)

/-- C5: `check` equals its specification — one `read_available` (recording
whether the fd reached EOF), one needle invocation on the entire retention
buffer; a non-empty record list is consumed up to the right-most index and
returned; an empty list with `eof` fails with `Eof`; otherwise an empty
`Found` with no bytes and no records. -/
theorem C5_check_characterisation (s : Stream) (n : Needle) :
    checkStream s n = checkSpec s n := by
  unfold checkStream checkSpec
  rw [read_available_spec]
  have hbuf : (drained s).get_available = totalBytes s := rfl
  cases hfe : s.fdEnd with
  | broken => simp [fdEndRes]
  | closed =>
    simp only [fdEndRes, hbuf]
    rcases hn : n (totalBytes s) true with e | fs
    case error => rfl
    cases fs with
    | nil => rfl
    | cons f fs =>
      simp only
      split
      case isFalse => rfl
      case isTrue hle =>
        have hc : (drained s).consume_from_buffer (Found.right_most_index (f :: fs)) =
            some { drained s with
                     buffer := (totalBytes s).drop (Found.right_most_index (f :: fs)) } := by
          have hle2 : Found.right_most_index (f :: fs) ≤ (drained s).buffer.length := hle
          unfold Stream.consume_from_buffer
          rw [if_pos hle2]
          rfl
        rw [hc]
  | pending =>
    simp only [fdEndRes, hbuf]
    rcases hn : n (totalBytes s) false with e | fs
    case error => rfl
    cases fs with
    | nil => rfl
    | cons f fs =>
      simp only
      split
      case isFalse => rfl
      case isTrue hle =>
        have hc : (drained s).consume_from_buffer (Found.right_most_index (f :: fs)) =
            some { drained s with
                     buffer := (totalBytes s).drop (Found.right_most_index (f :: fs)) } := by
          have hle2 : Found.right_most_index (f :: fs) ≤ (drained s).buffer.length := hle
          unfold Stream.consume_from_buffer
          rw [if_pos hle2]
          rfl
        rw [hc]

/-- Witness for C5 on the `echo 123` stream and the `\d+` needle. -/
theorem C5_witness :
    checkStream (Stream.new [49, 50, 51] FdEnd.closed) regexDigits =
      checkSpec (Stream.new [49, 50, 51] FdEnd.closed) regexDigits :=
  C5_check_characterisation (Stream.new [49, 50, 51] FdEnd.closed) regexDigits

/-- C6 counterexample: `try_read` does not restore the flag to its entry
value — entered with the fd already non-blocking, it exits with the fd
blocking. -/
theorem C6_counterexample :
    ((⟨[], [], [], FdEnd.pending, true⟩ : Stream).try_read 1).2.nonBlocking ≠
      (⟨[], [], [], FdEnd.pending, true⟩ : Stream).nonBlocking := by decide

/-- C6 (amended): `try_read`, `try_read_inner`, `read_available` and
`read_available_once` all leave the fd in blocking mode (`O_NONBLOCK`
cleared) on every exit path, including when the inner read fails; hence
whenever the fd was blocking at entry — the invariant every public entry
point maintains — the flag equals its entry value after the call. -/
theorem C6_blocking_cleared (s : Stream) (m : Nat) :
    (s.try_read m).2.nonBlocking = false ∧
    (s.try_read_inner m).2.nonBlocking = false ∧
    s.read_available.2.nonBlocking = false ∧
    (s.read_available_once m).2.nonBlocking = false ∧
    (s.nonBlocking = false →
      (s.try_read m).2.nonBlocking = s.nonBlocking ∧
      (s.try_read_inner m).2.nonBlocking = s.nonBlocking ∧
      s.read_available.2.nonBlocking = s.nonBlocking ∧
      (s.read_available_once m).2.nonBlocking = s.nonBlocking) :=
  ⟨try_read_flag s m, try_read_inner_flag s m, read_available_flag s,
   read_available_once_flag s m,
   fun h => ⟨by rw [try_read_flag, h], by rw [try_read_inner_flag, h],
     by rw [read_available_flag, h], by rw [read_available_once_flag, h]⟩⟩

/-- Witness for the amended C6 on a fresh (blocking) stream. -/
theorem C6_witness :
    ((Stream.new [] FdEnd.pending).try_read 1).2.nonBlocking = false ∧
    ((Stream.new [] FdEnd.pending).try_read_inner 1).2.nonBlocking = false ∧
    (Stream.new [] FdEnd.pending).read_available.2.nonBlocking = false ∧
    ((Stream.new [] FdEnd.pending).read_available_once 1).2.nonBlocking = false ∧
    ((Stream.new [] FdEnd.pending).nonBlocking = false →
      ((Stream.new [] FdEnd.pending).try_read 1).2.nonBlocking =
        (Stream.new [] FdEnd.pending).nonBlocking ∧
      ((Stream.new [] FdEnd.pending).try_read_inner 1).2.nonBlocking =
        (Stream.new [] FdEnd.pending).nonBlocking ∧
      (Stream.new [] FdEnd.pending).read_available.2.nonBlocking =
        (Stream.new [] FdEnd.pending).nonBlocking ∧
      ((Stream.new [] FdEnd.pending).read_available_once 1).2.nonBlocking =
        (Stream.new [] FdEnd.pending).nonBlocking) :=
  C6_blocking_cleared (Stream.new [] FdEnd.pending) 1

/-- C7: `read_available` first drains the upper line-buffer and then the fd
into the retention buffer (appending, preserving order), returning
`eof = true` exactly when the fd reached the zero-length read, `eof =
false` on `WouldBlock`, and propagating any other I/O error — in all cases
every byte pulled in is retained. -/
theorem C7_read_available_drains (s : Stream) :
    s.read_available = (fdEndRes s.fdEnd, drained s) ∧
    (drained s).buffer = s.buffer ++ s.inBuf ++ s.fdData ∧
    (drained s).inBuf = [] ∧
    (drained s).fdData = [] ∧
    (s.fdEnd = FdEnd.closed → s.read_available.1 = Except.ok true) ∧
    (s.fdEnd = FdEnd.pending → s.read_available.1 = Except.ok false) ∧
    (s.fdEnd = FdEnd.broken → s.read_available.1 = Except.error IOKind.otherErr) := by
  refine ⟨read_available_spec s, rfl, rfl, rfl, ?_, ?_, ?_⟩ <;>
    intro h <;> rw [read_available_spec] <;> rw [h] <;> rfl

/-- Witness for C7 on a stream with bytes in both buffers and at the fd. -/
theorem C7_witness :
    (⟨[2], [1], [3], FdEnd.closed, true⟩ : Stream).read_available =
      (fdEndRes (⟨[2], [1], [3], FdEnd.closed, true⟩ : Stream).fdEnd,
       drained ⟨[2], [1], [3], FdEnd.closed, true⟩) ∧
    (drained ⟨[2], [1], [3], FdEnd.closed, true⟩).buffer = [1] ++ [2] ++ [3] ∧
    (drained ⟨[2], [1], [3], FdEnd.closed, true⟩).inBuf = [] ∧
    (drained ⟨[2], [1], [3], FdEnd.closed, true⟩).fdData = [] ∧
    ((⟨[2], [1], [3], FdEnd.closed, true⟩ : Stream).fdEnd = FdEnd.closed →
      (⟨[2], [1], [3], FdEnd.closed, true⟩ : Stream).read_available.1 = Except.ok true) ∧
    ((⟨[2], [1], [3], FdEnd.closed, true⟩ : Stream).fdEnd = FdEnd.pending →
      (⟨[2], [1], [3], FdEnd.closed, true⟩ : Stream).read_available.1 = Except.ok false) ∧
    ((⟨[2], [1], [3], FdEnd.closed, true⟩ : Stream).fdEnd = FdEnd.broken →
      (⟨[2], [1], [3], FdEnd.closed, true⟩ : Stream).read_available.1 =
        Except.error IOKind.otherErr) :=
  C7_read_available_drains ⟨[2], [1], [3], FdEnd.closed, true⟩

/-- C8 counterexample: a legal needle (a pure function of `(data, eof)`)
whose verdict is not monotone makes two successive `is_matched` calls with
no intervening writes return `(true, false)`: the first call sees the empty
buffer (even length, matched), one byte arrives from the child, the second
call sees an odd length and reports no match. -/
theorem C8_counterexample :
    is_matched_twice ⟨[], [], [], FdEnd.pending, false⟩ evenNeedle [97] =
      (Except.ok true, Except.ok false) := by decide

/-- C8 (amended): for every needle whose verdict is monotone under buffer
growth (as all built-in needles are), two successive `is_matched` calls
with the same needle and no intervening writes never go from `true` to
`false`, whatever bytes arrive in between — `is_matched` consumes nothing,
so the second call sees a superset of the first call's data. -/
theorem C8_is_matched_monotone (s : Stream) (n : Needle) (arrival : List Nat)
    (hm : MonotoneNeedle n)
    (h1 : (is_matched_twice s n arrival).1 = Except.ok true) :
    (is_matched_twice s n arrival).2 = Except.ok true := by
  unfold is_matched_twice at h1 ⊢
  simp only at h1 ⊢
  obtain ⟨eof, hfd, f, fs, hn⟩ := isMatched_true_inv s n h1
  have hst := isMatched_snd s n
  rw [hst]
  have harg : totalBytes { drained s with fdData := (drained s).fdData ++ arrival } =
      totalBytes s ++ arrival := by
    simp [totalBytes, drained]
  obtain ⟨f2, fs2, hn2⟩ := hm (totalBytes s) arrival eof eof (fun a => a) ⟨f, fs, hn⟩
  exact isMatched_true_fwd _ n eof f2 fs2 hfd (by rw [harg]; exact hn2)

/-- Witness for the amended C8 with a (trivially monotone) always-matching
needle and one byte of arrival. -/
theorem C8_witness :
    (is_matched_twice (Stream.new [] FdEnd.pending) constNeedle [97]).2 = Except.ok true :=
  C8_is_matched_monotone (Stream.new [] FdEnd.pending) constNeedle [97]
    (fun _ _ _ _ _ _ => ⟨⟨0, 0⟩, [], rfl⟩) (by decide)

/-- C9 counterexample: with the expect-timeout set to `None`, a needle that
itself fails with `Error::ExpectTimeout` is propagated verbatim, so expect
does return `Err(ExpectTimeout)`. -/
theorem C9_counterexample :
    Session.expect ((Session.spawn [] FdEnd.pending).set_expect_timeout none) timeoutNeedle
      (fun _ => false) 3 =
      ExpectRes.err Error.expectTimeout (Stream.new [] FdEnd.pending) := by decide

/-- C9 (amended): a freshly spawned session has expect-timeout
`Some(10000 ms)`, and with the timeout set to `None` the expect loop never
raises `ExpectTimeout` of its own accord: for every needle that does not
itself return `Err(ExpectTimeout)`, expect cannot return it — it can only
match, fail with `Eof`, or propagate an I/O or needle error. -/
theorem C9_default_and_no_timeout :
    (∀ (d : List Nat) (fe : FdEnd), (Session.spawn d fe).expect_timeout = some 10000) ∧
    (∀ (sess : Session) (n : Needle) (el : Nat → Bool) (fuel : Nat) (s2 : Stream),
      sess.expect_timeout = none →
      (∀ d e, n d e ≠ Except.error Error.expectTimeout) →
      Session.expect sess n el fuel ≠ ExpectRes.err Error.expectTimeout s2) := by
  refine ⟨fun d fe => rfl, ?_⟩
  intro sess n el fuel s2 ht hn
  unfold Session.expect
  rw [ht]
  exact expectLoop_noTimeout n el hn fuel 0 ⟨sess.stream, 0, false⟩ s2

/-- Witness for the amended C9: a silent child with timeout `None` and a
literal needle never yields `ExpectTimeout`. -/
theorem C9_witness :
    Session.expect ((Session.spawn [] FdEnd.pending).set_expect_timeout none)
      (literalNeedle [120]) (fun _ => false) 3 ≠
      ExpectRes.err Error.expectTimeout (Stream.new [] FdEnd.pending) :=
  C9_default_and_no_timeout.2 ((Session.spawn [] FdEnd.pending).set_expect_timeout none)
    (literalNeedle [120]) (fun _ => false) 3 (Stream.new [] FdEnd.pending) rfl
    (fun d e => by unfold literalNeedle; cases findSub [120] d <;> simp)

/-- C10: expect and check trust the needle's offsets — whenever every
record a needle returns ends inside the data it was given, neither expect
nor check can panic; and a needle violating that precondition (reporting
`end = 5` on shorter data) drives both into the out-of-bounds slice,
modelled as the `panicked` outcome. -/
theorem C10_needle_offsets_trusted :
    (∀ (n : Needle),
      (∀ d e fs, n d e = Except.ok fs → Found.right_most_index fs ≤ d.length) →
      (∀ (sess : Session) (el : Nat → Bool) (fuel : Nat),
        Session.expect sess n el fuel ≠ ExpectRes.panicked) ∧
      (∀ s : Stream, checkStream s n ≠ CheckRes.panicked)) ∧
    Session.expect (Session.spawn [] FdEnd.pending) badOffsetNeedle (fun _ => false) 1 =
      ExpectRes.panicked ∧
    checkStream (Stream.new [] FdEnd.pending) badOffsetNeedle = CheckRes.panicked := by
  refine ⟨?_, by decide, by decide⟩
  intro n hb
  constructor
  · intro sess el fuel
    exact expectLoop_noPanic n sess.expect_timeout.isSome el hb fuel 0
      ⟨sess.stream, 0, false⟩ (Nat.zero_le _)
  · intro s h
    unfold checkStream at h
    rcases hra : s.read_available with ⟨r, s1⟩
    rw [hra] at h
    cases r with
    | error e => simp at h
    | ok eof =>
      simp only at h
      rcases hn : n s1.get_available eof with e | fs
      · rw [hn] at h; simp at h
      · rw [hn] at h
        cases fs with
        | nil =>
          simp only at h
          cases eof <;> simp at h
        | cons f fs =>
          have hbd := hb _ _ _ hn
          simp only at h
          split at h
          case isFalse hle => exact hle hbd
          case isTrue hle =>
            split at h
            case h_1 => simp at h
            case h_2 hc =>
              have hle2 : Found.right_most_index (f :: fs) ≤ s1.buffer.length := hbd
              simp [Stream.consume_from_buffer, hle2] at hc

/-- Witness for C10's quantified part with an offset-respecting needle. -/
theorem C10_witness :
    Session.expect (Session.spawn [] FdEnd.pending) constNeedle (fun _ => false) 1 ≠
      ExpectRes.panicked :=
  (C10_needle_offsets_trusted.1 constNeedle
    (fun d e fs h => by
      unfold constNeedle at h
      injection h with h1
      subst h1
      simp [Found.right_most_index])).1 (Session.spawn [] FdEnd.pending) (fun _ => false) 1

end Expectrl
